import Mathlib

/-!
Verification of the audio sample-processing and container-encoding core of
the Cortador-de-audio repository (src/src/utils/audioUtils.ts).

Modelling choices:
* Audio samples and time values are embedded as exact rationals (ℚ); the
  source operates on JS numbers, and the specification states its formulas
  in exact real arithmetic.
* Byte sequences are `List ℕ` with each entry a byte value.
* `Math.floor` on a nonnegative product becomes `Int.floor`; integer sample
  offsets are kept in ℤ exactly as the source computes them.
* The external lamejs MP3 compressor is an abstract state machine passed as
  a parameter (`LameJS`); `window.lamejs` being absent is the `none` case of
  an `Option (LameJS σ)`.
-/

namespace AudioUtils

/-- A decoded multi-channel audio buffer: sample rate in Hz and one sample
list per channel (the shallow embedding of the DOM `AudioBuffer` as the
source reads it: `sampleRate`, `numberOfChannels`, `getChannelData`). -/
structure AudioBuffer where
  sampleRate : ℕ
  channels : List (List ℚ)
deriving Repr, DecidableEq

/-- The `numberOfChannels` of the buffer. -/
def AudioBuffer.numberOfChannels (b : AudioBuffer) : ℕ := b.channels.length

/-- The `getChannelData c` of the buffer: channel `c`'s sample list. -/
def AudioBuffer.getChannelData (b : AudioBuffer) (c : ℕ) : List ℚ :=
  b.channels.getD c []

/-- Result record of `getProcessedSamples` in the source. -/
structure ProcessedSamples where
  processedChannels : List (List ℚ)
  frameCount : ℕ
  sampleRate : ℕ
  numChannels : ℕ
deriving Repr, DecidableEq

/-- The clamp `Math.max(-1, Math.min(1, sample))` from the source. -/
def clamp (q : ℚ) : ℚ := max (-1) (min 1 q)

/-- The fade multiplier computed inside the per-sample loop of
`getProcessedSamples`: starts at 1.0; replaced by `i / fadeInSamples` when
`i < fadeInSamples && fadeInSamples > 0`; then multiplied by
`distFromEnd / fadeOutSamples` when
`distFromEnd < fadeOutSamples && fadeOutSamples > 0`, where
`distFromEnd = frameCount - 1 - i`. -/
def fadeMultiplier (frameCount fadeInSamples fadeOutSamples i : ℕ) : ℚ :=
  let m1 : ℚ :=
    if i < fadeInSamples ∧ 0 < fadeInSamples then (i : ℚ) / (fadeInSamples : ℚ) else 1
  let distFromEnd : ℕ := frameCount - 1 - i
  if distFromEnd < fadeOutSamples ∧ 0 < fadeOutSamples then
    m1 * ((distFromEnd : ℚ) / (fadeOutSamples : ℚ))
  else m1

/-- Function `getProcessedSamples` from the source: extracts `frameCount` samples per
channel starting at `floor(optStart * sampleRate)`, applies the fade
multiplier and clamps each sample to `[-1, 1]`. -/
def getProcessedSamples (buffer : AudioBuffer) (optStart optEnd fadeInDuration fadeOutDuration : ℚ) :
    ProcessedSamples :=
  let sampleRate := buffer.sampleRate
  let startOffset : ℤ := Int.floor (optStart * (sampleRate : ℚ))
  let endOffset : ℤ := Int.floor (optEnd * (sampleRate : ℚ))
  let frameCount : ℕ := (endOffset - startOffset).toNat
  let numChannels := buffer.numberOfChannels
  let fadeInSamples : ℕ := (Int.floor (fadeInDuration * (sampleRate : ℚ))).toNat
  let fadeOutSamples : ℕ := (Int.floor (fadeOutDuration * (sampleRate : ℚ))).toNat
  let processedChannels : List (List ℚ) :=
    buffer.channels.map (fun rawData =>
      (List.range frameCount).map (fun i =>
        clamp (rawData.getD ((startOffset + (i : ℤ)).toNat) 0 *
          fadeMultiplier frameCount fadeInSamples fadeOutSamples i)))
  ⟨processedChannels, frameCount, sampleRate, numChannels⟩

/-- An encoded binary blob: byte sequence plus MIME type. -/
structure Blob where
  data : List ℕ
  mimeType : String
deriving Repr, DecidableEq

/-- Two bytes of an unsigned 16-bit little-endian value, as written by
`DataView.setUint16(offset, n, true)` (which wraps modulo 2^16). -/
def u16le (n : ℕ) : List ℕ := [n % 256, n / 256 % 256]

/-- Four bytes of an unsigned 32-bit little-endian value, as written by
`DataView.setUint32(offset, n, true)` (which wraps modulo 2^32). -/
def u32le (n : ℕ) : List ℕ := [n % 256, n / 256 % 256, n / 65536 % 256, n / 16777216 % 256]

/-- Truncation toward zero of a rational, the `ToIntegerOrInfinity` step JS
applies when storing a number into an Int16 slot. -/
def ratTrunc (q : ℚ) : ℤ := if q < 0 then -Int.floor (-q) else Int.floor q

/-- The asymmetric 16-bit quantization both encoders use:
`sample < 0 ? sample * 0x8000 : sample * 0x7FFF`, truncated to integer. -/
def quantize (sample : ℚ) : ℤ :=
  if sample < 0 then ratTrunc (sample * 32768) else ratTrunc (sample * 32767)

/-- The `ToInt16` wrapping of an integer into `[-32768, 32767]`, applied by JS on
`Int16Array` element stores and by `DataView.setInt16`. -/
def toInt16 (n : ℤ) : ℤ := (n + 32768) % 65536 - 32768

/-- Two bytes of a signed 16-bit little-endian value, as written by
`DataView.setInt16(offset, n, true)`. -/
def int16le (n : ℤ) : List ℕ := u16le ((n % 65536).toNat)

/-- Byte list of an ASCII string, as `writeString` in the source stores it
(one byte per character, `charCodeAt`). -/
def strBytes (s : String) : List ℕ := s.toList.map Char.toNat

/-- The 44-byte WAV header the source writes field by field into offsets
0..43 of the output buffer. -/
def wavHeader (numChannels sampleRate frameCount : ℕ) : List ℕ :=
  let blockAlign := numChannels * 2
  let byteRate := sampleRate * blockAlign
  let dataSize := frameCount * blockAlign
  strBytes "RIFF" ++ u32le (36 + dataSize) ++ strBytes "WAVE" ++
  strBytes "fmt " ++ u32le 16 ++ u16le 1 ++ u16le numChannels ++
  u32le sampleRate ++ u32le byteRate ++ u16le blockAlign ++ u16le 16 ++
  strBytes "data" ++ u32le dataSize

/-- The interleaved 16-bit PCM body the source writes after offset 44: for
each frame `i` in order, for each channel `c` in order, the quantized sample
in little-endian. -/
def wavBody (processedChannels : List (List ℚ)) (frameCount numChannels : ℕ) : List ℕ :=
  ((List.range frameCount).map (fun i =>
    ((List.range numChannels).map (fun c =>
      int16le (quantize ((processedChannels.getD c []).getD i 0)))).flatten)).flatten

/-- Function `audioBufferToWav` from the source: runs `getProcessedSamples`, then
emits the 44-byte header followed by the interleaved 16-bit samples, as an
`audio/wav` blob. -/
def audioBufferToWav (buffer : AudioBuffer) (optStart optEnd fadeInDuration fadeOutDuration : ℚ) :
    Blob :=
  let ps := getProcessedSamples buffer optStart optEnd fadeInDuration fadeOutDuration
  ⟨wavHeader ps.numChannels ps.sampleRate ps.frameCount ++
    wavBody ps.processedChannels ps.frameCount ps.numChannels, "audio/wav"⟩

/-- The external block-based MP3 compressor interface (lamejs): a
constructor `new lamejs.Mp3Encoder(channels, sampleRate, kbps)` and the two
stateful operations `encodeBuffer(left, right?)` and `flush()`, each
returning compressed bytes. `σ` is the compressor's hidden state. -/
structure LameJS (σ : Type) where
  mkEncoder : ℕ → ℕ → ℕ → σ
  encodeBuffer : σ → List ℤ → Option (List ℤ) → σ × List ℕ
  flush : σ → σ × List ℕ

/-- The Float32-to-Int16 conversion loop of `audioBufferToMp3`: for each of
the first `encodingChannels` processed channels, clamp to `[-1, 1]`,
quantize asymmetrically and store into an `Int16Array` (ToInt16 wrap). -/
def mp3SampleData (processedChannels : List (List ℚ)) (encodingChannels : ℕ) : List (List ℤ) :=
  (List.range encodingChannels).map (fun c =>
    (processedChannels.getD c []).map (fun s => toInt16 (quantize (clamp s))))

/-- The chunked encoding loop of `audioBufferToMp3`:
`for (let i = 0; i < frameCount; i += 1152)` submit
`subarray(i, i + 1152)` of each channel to the compressor, collecting each
non-empty compressed output in order. Returns the compressor state after the
loop and the collected chunks. -/
def encodeBlocks {σ : Type} (L : LameJS σ) (st : σ) (left : List ℤ) (right : Option (List ℤ))
    (frameCount i : ℕ) : σ × List (List ℕ) :=
  if h : i < frameCount then
    let leftChunk := (left.drop i).take 1152
    let rightChunk := right.map (fun r => (r.drop i).take 1152)
    let p := L.encodeBuffer st leftChunk rightChunk
    let rest := encodeBlocks L p.1 left right frameCount (i + 1152)
    (rest.1, if 0 < p.2.length then p.2 :: rest.2 else rest.2)
  else (st, [])
termination_by frameCount - i
decreasing_by omega

/-- Function `audioBufferToMp3` from the source: fails when `window.lamejs` is not
loaded; otherwise extracts the processed samples, keeps at most two
channels, quantizes them, feeds the compressor in 1152-frame blocks,
flushes once, and concatenates all collected chunks into an `audio/mp3`
blob. -/
def audioBufferToMp3 {σ : Type} (lamejs : Option (LameJS σ)) (buffer : AudioBuffer)
    (optStart optEnd fadeInDuration fadeOutDuration : ℚ) : Except String Blob :=
  match lamejs with
  | none =>
    Except.error "La librería de codificación MP3 (lamejs) no se ha cargado correctamente."
  | some L =>
    let ps := getProcessedSamples buffer optStart optEnd fadeInDuration fadeOutDuration
    let encodingChannels := min ps.numChannels 2
    let sampleData := mp3SampleData ps.processedChannels encodingChannels
    let mp3encoder := L.mkEncoder encodingChannels ps.sampleRate 128
    let left := sampleData.getD 0 []
    let right := if 1 < encodingChannels then some (sampleData.getD 1 []) else none
    let enc := encodeBlocks L mp3encoder left right ps.frameCount 0
    let fl := L.flush enc.1
    let chunks := enc.2 ++ (if 0 < fl.2.length then [fl.2] else [])
    Except.ok ⟨chunks.flatten, "audio/mp3"⟩

/-- Spec-side description of §4.3 step 3: the list of block submissions, one
per block index `k` in ascending order, each holding the 1152-frame slice of
the left (and, if stereo, right) channel starting at frame `k * 1152`; the
number of blocks is `⌈frameCount / 1152⌉` so the final, possibly partial,
block is included. -/
def specSubmissions (left : List ℤ) (right : Option (List ℤ)) (frameCount : ℕ) :
    List (List ℤ × Option (List ℤ)) :=
  (List.range ((frameCount + 1151) / 1152)).map (fun k =>
    ((left.drop (k * 1152)).take 1152, right.map (fun r => (r.drop (k * 1152)).take 1152)))

/-- Spec-side description of §4.3 step 4: submit a list of blocks to the
compressor in order, accumulating every non-empty output in submission
order. -/
def runSubmissions {σ : Type} (L : LameJS σ) (st : σ) :
    List (List ℤ × Option (List ℤ)) → σ × List (List ℕ)
  | [] => (st, [])
  | b :: rest =>
    let p := L.encodeBuffer st b.1 b.2
    let r := runSubmissions L p.1 rest
    (r.1, if 0 < p.2.length then p.2 :: r.2 else r.2)

/-- Spec-side description of the full §4.3 MP3 byte stream: construct the
compressor, submit the ascending 1152-frame blocks, call `flush()` exactly
once after all blocks, append its output if non-empty, and concatenate all
accumulated chunks in order. -/
def mp3SpecBytes {σ : Type} (L : LameJS σ) (encodingChannels sampleRate : ℕ)
    (left : List ℤ) (right : Option (List ℤ)) (frameCount : ℕ) : List ℕ :=
  let st0 := L.mkEncoder encodingChannels sampleRate 128
  let r := runSubmissions L st0 (specSubmissions left right frameCount)
  let fl := L.flush r.1
  (r.2 ++ (if 0 < fl.2.length then [fl.2] else [])).flatten

/-- The start indices visited by the source's block loop
`for (let i = 0; i < frameCount; i += 1152)`, beginning at `i`. -/
def blockStartsFrom (frameCount i : ℕ) : List ℕ :=
  if h : i < frameCount then i :: blockStartsFrom frameCount (i + 1152) else []
termination_by frameCount - i
decreasing_by omega

/-- A concrete compressor instance used to exercise the MP3 encoder on
explicit inputs: its state counts constructor and submission data, and each
operation emits one byte derived from the state. -/
def probeLame : LameJS ℕ :=
  ⟨fun ch rate kbps => ch + rate + kbps,
   fun st l r => (st + l.length + (r.map List.length).getD 0, [st % 256]),
   fun st => (st, [st % 256])⟩

/-! ### Helper lemmas -/

lemma int16le_length (n : ℤ) : (int16le n).length = 2 := rfl

lemma neg_one_le_clamp (q : ℚ) : -1 ≤ clamp q := le_max_left _ _

lemma clamp_le_one (q : ℚ) : clamp q ≤ 1 := max_le (by norm_num) (min_le_left _ _)

lemma quantize_bounds {v : ℚ} (h1 : -1 ≤ v) (h2 : v ≤ 1) :
    -32768 ≤ quantize v ∧ quantize v ≤ 32767 := by
  unfold quantize ratTrunc
  by_cases hv : v < 0
  · have hq : v * 32768 < 0 := by nlinarith
    rw [if_pos hv, if_pos hq]
    constructor
    · have hle : -(v * 32768) ≤ (32768 : ℚ) := by nlinarith
      have hfl : ⌊-(v * 32768)⌋ ≤ 32768 := by
        calc ⌊-(v * 32768)⌋ ≤ ⌊(32768 : ℚ)⌋ := Int.floor_le_floor hle
        _ = 32768 := by norm_num
      omega
    · have hfl : (0 : ℤ) ≤ ⌊-(v * 32768)⌋ := Int.floor_nonneg.mpr (by nlinarith)
      omega
  · push_neg at hv
    have hq : ¬ v * 32767 < 0 := by push_neg; nlinarith
    rw [if_neg (by push_neg; exact hv), if_neg hq]
    constructor
    · have hfl : (0 : ℤ) ≤ ⌊v * 32767⌋ := Int.floor_nonneg.mpr (by nlinarith)
      omega
    · calc ⌊v * 32767⌋ ≤ ⌊(32767 : ℚ)⌋ := Int.floor_le_floor (by nlinarith)
      _ = 32767 := by norm_num

lemma toInt16_eq_of_bounds {n : ℤ} (h1 : -32768 ≤ n) (h2 : n ≤ 32767) : toInt16 n = n := by
  unfold toInt16
  have h3 : (n + 32768) % 65536 = n + 32768 := Int.emod_eq_of_lt (by omega) (by omega)
  omega

lemma getD_map_of_lt {α β : Type} (f : α → β) (l : List α) (d : β) (d₂ : α) {c : ℕ}
    (hc : c < l.length) : (l.map f).getD c d = f (l.getD c d₂) := by
  rw [List.getD_eq_getElem?_getD, List.getElem?_map, List.getElem?_eq_getElem hc,
    Option.map_some', Option.getD_some, List.getD_eq_getElem?_getD,
    List.getElem?_eq_getElem hc, Option.getD_some]

lemma getD_range_map_of_lt {β : Type} (g : ℕ → β) (d : β) {n i : ℕ}
    (hi : i < n) : ((List.range n).map g).getD i d = g i := by
  rw [List.getD_eq_getElem?_getD, List.getElem?_map, List.getElem?_range hi,
    Option.map_some', Option.getD_some]

/-! ### C2: overlap composition of fade ramps -/

/-- C2: when the fade-in and fade-out windows overlap, both fade multipliers
apply multiplicatively — the two ramps compose, never a max/min or
one-overrides-the-other policy; concretely, for `frameCount = 100`,
`fadeInSamples = 60`, `fadeOutSamples = 60`, the multiplier at index 50
equals `(50/60) * (49/60)`. -/
theorem fade_overlap_composition :
    (∀ frameCount fadeInSamples fadeOutSamples i : ℕ,
        i < fadeInSamples → 0 < fadeInSamples →
        frameCount - 1 - i < fadeOutSamples → 0 < fadeOutSamples →
        fadeMultiplier frameCount fadeInSamples fadeOutSamples i =
          ((i : ℚ) / (fadeInSamples : ℚ)) *
            (((frameCount - 1 - i : ℕ) : ℚ) / (fadeOutSamples : ℚ))) ∧
    fadeMultiplier 100 60 60 50 = ((50 : ℚ) / 60) * ((49 : ℚ) / 60) := by
  constructor
  · intro fc fIn fOut i h1 h2 h3 h4
    simp only [fadeMultiplier]
    rw [if_pos ⟨h3, h4⟩, if_pos ⟨h1, h2⟩]
  · norm_num [fadeMultiplier]

/-- Witness for C2 at the concrete input from the claim. -/
theorem fade_overlap_composition_witness :
    fadeMultiplier 100 60 60 50 =
      ((50 : ℚ) / (60 : ℚ)) * (((100 - 1 - 50 : ℕ) : ℚ) / (60 : ℚ)) :=
  fade_overlap_composition.1 100 60 60 50 (by decide) (by decide) (by decide) (by decide)

/-! ### C5: MP3 dependency check -/

/-- C5: if the MP3 compressor is unavailable, `audioBufferToMp3` fails with
the dependency error (before any extraction or compressor interaction, which
the `Except.error` result shows: no partial work is produced); if the
compressor is available, no error is ever raised. -/
theorem mp3_dependency_unavailable :
    (∀ (σ : Type) (b : AudioBuffer) (s e fIn fOut : ℚ),
        audioBufferToMp3 (none : Option (LameJS σ)) b s e fIn fOut =
          Except.error
            "La librería de codificación MP3 (lamejs) no se ha cargado correctamente.") ∧
    (∀ (σ : Type) (L : LameJS σ) (b : AudioBuffer) (s e fIn fOut : ℚ),
        ∃ blob : Blob, audioBufferToMp3 (some L) b s e fIn fOut = Except.ok blob) :=
  ⟨fun _ _ _ _ _ _ => rfl, fun _ _ _ _ _ _ _ => ⟨_, rfl⟩⟩

/-! ### C8: frame-count length invariant -/

/-- C8: for every valid range, the extractor's frame count equals
`floor(end * rate) - floor(start * rate)` exactly, and every channel of the
same extraction has exactly that length. -/
theorem frameCount_length_invariant (b : AudioBuffer) (s e fIn fOut : ℚ) (hse : s ≤ e) :
    (((getProcessedSamples b s e fIn fOut).frameCount : ℤ) =
        Int.floor (e * (b.sampleRate : ℚ)) - Int.floor (s * (b.sampleRate : ℚ))) ∧
    ∀ ch ∈ (getProcessedSamples b s e fIn fOut).processedChannels,
      ch.length = (getProcessedSamples b s e fIn fOut).frameCount := by
  constructor
  · simp only [getProcessedSamples]
    have hmul : s * (b.sampleRate : ℚ) ≤ e * (b.sampleRate : ℚ) :=
      mul_le_mul_of_nonneg_right hse (by positivity)
    have hfl : Int.floor (s * (b.sampleRate : ℚ)) ≤ Int.floor (e * (b.sampleRate : ℚ)) :=
      Int.floor_le_floor hmul
    exact Int.toNat_of_nonneg (by omega)
  · intro ch hch
    simp only [getProcessedSamples] at hch ⊢
    obtain ⟨raw, _, hraw⟩ := List.mem_map.mp hch
    rw [← hraw, List.length_map, List.length_range]

/-- Witness for C8 at a concrete buffer and range. -/
theorem frameCount_length_invariant_witness :
    ((((getProcessedSamples ⟨4, [[1, 2, 3, 4]]⟩ 0 (1/2) 0 0).frameCount : ℤ) =
        Int.floor ((1/2 : ℚ) * ((4 : ℕ) : ℚ)) - Int.floor ((0 : ℚ) * ((4 : ℕ) : ℚ))) ∧
      ∀ ch ∈ (getProcessedSamples ⟨4, [[1, 2, 3, 4]]⟩ 0 (1/2) 0 0).processedChannels,
        ch.length = (getProcessedSamples ⟨4, [[1, 2, 3, 4]]⟩ 0 (1/2) 0 0).frameCount) :=
  frameCount_length_invariant ⟨4, [[1, 2, 3, 4]]⟩ 0 (1/2) 0 0 (by norm_num)

/-! ### C9: determinism of extract-then-encode -/

/-- C9: extraction followed by WAV encoding is deterministic — the embedding
of the pipeline is a pure function, so two calls on equal `(source, range,
fade)` inputs produce byte-identical encoded output. -/
theorem wav_determinism (b₁ b₂ : AudioBuffer) (s₁ s₂ e₁ e₂ fIn₁ fIn₂ fOut₁ fOut₂ : ℚ)
    (hb : b₁ = b₂) (hs : s₁ = s₂) (he : e₁ = e₂) (hfi : fIn₁ = fIn₂) (hfo : fOut₁ = fOut₂) :
    audioBufferToWav b₁ s₁ e₁ fIn₁ fOut₁ = audioBufferToWav b₂ s₂ e₂ fIn₂ fOut₂ ∧
    (audioBufferToWav b₁ s₁ e₁ fIn₁ fOut₁).data = (audioBufferToWav b₂ s₂ e₂ fIn₂ fOut₂).data := by
  subst hb hs he hfi hfo
  exact ⟨rfl, rfl⟩

/-- Witness for C9: two identical calls on a concrete input agree. -/
theorem wav_determinism_witness :
    audioBufferToWav ⟨2, [[1/2, -1/2]]⟩ 0 1 0 0 = audioBufferToWav ⟨2, [[1/2, -1/2]]⟩ 0 1 0 0 ∧
    (audioBufferToWav ⟨2, [[1/2, -1/2]]⟩ 0 1 0 0).data =
      (audioBufferToWav ⟨2, [[1/2, -1/2]]⟩ 0 1 0 0).data :=
  wav_determinism ⟨2, [[1/2, -1/2]]⟩ ⟨2, [[1/2, -1/2]]⟩ 0 0 1 1 0 0 0 0 rfl rfl rfl rfl rfl

lemma sum_map_const {α : Type} (l : List α) (k : ℕ) : (l.map (fun _ => k)).sum = l.length * k := by
  induction l with
  | nil => simp
  | cons a t ih => simp [ih, Nat.succ_mul, Nat.add_comm]

lemma wavHeader_length (nc rate fc : ℕ) : (wavHeader nc rate fc).length = 44 := by
  simp [wavHeader, strBytes, u16le, u32le]

lemma wavBody_length (pcs : List (List ℚ)) (fc nc : ℕ) :
    (wavBody pcs fc nc).length = fc * (nc * 2) := by
  unfold wavBody
  rw [List.length_flatten, List.map_map]
  have hinner : ∀ i ∈ List.range fc,
      (List.length ∘ fun i => ((List.range nc).map
        (fun c => int16le (quantize ((pcs.getD c []).getD i 0)))).flatten) i =
        (fun _ : ℕ => nc * 2) i := by
    intro i _
    simp only [Function.comp_apply, List.length_flatten, List.map_map]
    have h2 : ((List.range nc).map
        (List.length ∘ fun c => int16le (quantize ((pcs.getD c []).getD i 0)))) =
        (List.range nc).map (fun _ => 2) := List.map_congr_left (fun a _ => rfl)
    rw [h2, sum_map_const, List.length_range]
  rw [List.map_congr_left hinner, sum_map_const, List.length_range]

lemma flatten_drop_mul {α : Type} (k : ℕ) :
    ∀ (l : List (List α)) (i : ℕ), (∀ x ∈ l, x.length = k) →
      l.flatten.drop (i * k) = (l.drop i).flatten := by
  intro l
  induction l with
  | nil => intro i _; simp
  | cons x xs ih =>
    intro i hx
    cases i with
    | zero => simp
    | succ n =>
      have hxlen : x.length = k := hx x (by simp)
      rw [List.flatten_cons]
      have hmul : (n + 1) * k = x.length + n * k := by rw [hxlen]; ring
      rw [hmul, List.drop_append, List.drop_succ_cons]
      exact ih n (fun y hy => hx y (List.mem_cons_of_mem _ hy))

/-! ### C1: the per-sample extraction formula -/

/-- C1: for every channel `c` and output index `i < frameCount`, the
extractor computes the sample as
`clamp(source[startIdx + i] * multiplier, -1, 1)` where the multiplier is
the fade multiplier: `1.0`, replaced by `i / fadeInSamples` when
`i < fadeInSamples` and `fadeInSamples > 0`, then multiplied by
`distFromEnd / fadeOutSamples` when `distFromEnd < fadeOutSamples` and
`fadeOutSamples > 0`. -/
theorem extractor_sample_formula (b : AudioBuffer) (s e fIn fOut : ℚ) (c i : ℕ)
    (hc : c < b.numberOfChannels)
    (hi : i < (getProcessedSamples b s e fIn fOut).frameCount)
    (hs : 0 ≤ s) :
    ((getProcessedSamples b s e fIn fOut).processedChannels.getD c []).getD i 0 =
      clamp ((b.getChannelData c).getD ((Int.floor (s * (b.sampleRate : ℚ))).toNat + i) 0 *
        fadeMultiplier (getProcessedSamples b s e fIn fOut).frameCount
          (Int.floor (fIn * (b.sampleRate : ℚ))).toNat
          (Int.floor (fOut * (b.sampleRate : ℚ))).toNat i) := by
  have hs0 : (0 : ℚ) ≤ s * (b.sampleRate : ℚ) := mul_nonneg hs (Nat.cast_nonneg _)
  have hfl0 : 0 ≤ Int.floor (s * (b.sampleRate : ℚ)) := Int.floor_nonneg.mpr hs0
  simp only [getProcessedSamples, AudioBuffer.numberOfChannels, AudioBuffer.getChannelData]
    at hi hc ⊢
  rw [getD_map_of_lt _ _ _ ([] : List ℚ) hc]
  rw [getD_range_map_of_lt _ _ hi,
    Int.toNat_add hfl0 (Int.natCast_nonneg i), Int.toNat_natCast]

/-- Witness for C1 at a concrete buffer, channel 0, index 1. -/
theorem extractor_sample_formula_witness :
    ((getProcessedSamples ⟨2, [[1/2, 1/4]]⟩ 0 1 0 0).processedChannels.getD 0 []).getD 1 0 =
      clamp (((⟨2, [[1/2, 1/4]]⟩ : AudioBuffer).getChannelData 0).getD
          ((Int.floor ((0 : ℚ) * (((⟨2, [[1/2, 1/4]]⟩ : AudioBuffer).sampleRate : ℕ) : ℚ))).toNat + 1) 0 *
        fadeMultiplier (getProcessedSamples ⟨2, [[1/2, 1/4]]⟩ 0 1 0 0).frameCount
          (Int.floor ((0 : ℚ) * (((⟨2, [[1/2, 1/4]]⟩ : AudioBuffer).sampleRate : ℕ) : ℚ))).toNat
          (Int.floor ((0 : ℚ) * (((⟨2, [[1/2, 1/4]]⟩ : AudioBuffer).sampleRate : ℕ) : ℚ))).toNat 1) :=
  extractor_sample_formula ⟨2, [[1/2, 1/4]]⟩ 0 1 0 0 0 1
    (by norm_num [AudioBuffer.numberOfChannels])
    (by norm_num [getProcessedSamples]) (by norm_num)

/-! ### C10: every written 16-bit value is in range -/

/-- C10: every extractor output sample lies in `[-1, 1]`; quantization of
any value in `[-1, 1]` lies in `[-32768, 32767]`; and the MP3 path's Int16
store never wraps: the ToInt16 conversion is the identity on every
quantized clamped sample, for arbitrary (even out-of-range) inputs. -/
theorem no_int16_overflow :
    (∀ (b : AudioBuffer) (s e fIn fOut : ℚ),
        ∀ ch ∈ (getProcessedSamples b s e fIn fOut).processedChannels,
          ∀ v ∈ ch, -1 ≤ v ∧ v ≤ 1) ∧
    (∀ v : ℚ, -1 ≤ v → v ≤ 1 → -32768 ≤ quantize v ∧ quantize v ≤ 32767) ∧
    (∀ v : ℚ, toInt16 (quantize (clamp v)) = quantize (clamp v)) := by
  refine ⟨?_, fun v h1 h2 => quantize_bounds h1 h2, ?_⟩
  · intro b s e fIn fOut ch hch v hv
    simp only [getProcessedSamples] at hch
    obtain ⟨raw, _, hraw⟩ := List.mem_map.mp hch
    rw [← hraw] at hv
    obtain ⟨j, _, hj⟩ := List.mem_map.mp hv
    rw [← hj]
    exact ⟨neg_one_le_clamp _, clamp_le_one _⟩
  · intro v
    obtain ⟨hl, hu⟩ := quantize_bounds (neg_one_le_clamp v) (clamp_le_one v)
    exact toInt16_eq_of_bounds hl hu

/-- Witness for C10 at concrete sample values, including the out-of-range
input `3/2`. -/
theorem no_int16_overflow_witness :
    (-32768 ≤ quantize (1/2) ∧ quantize (1/2) ≤ 32767) ∧
    toInt16 (quantize (clamp (3/2))) = quantize (clamp (3/2)) :=
  ⟨no_int16_overflow.2.1 (1/2) (by norm_num) (by norm_num), no_int16_overflow.2.2 (3/2)⟩

lemma wavBody_sample_bytes (pcs : List (List ℚ)) (fc nc : ℕ) {i c : ℕ}
    (hi : i < fc) (hc : c < nc) :
    ((wavBody pcs fc nc).drop ((i * nc + c) * 2)).take 2 =
      int16le (quantize ((pcs.getD c []).getD i 0)) := by
  set g : ℕ → ℕ → List ℕ := fun i c => int16le (quantize ((pcs.getD c []).getD i 0)) with hg
  set groups : List (List (List ℕ)) :=
    (List.range fc).map (fun i => (List.range nc).map (fun c => g i c)) with hgroups
  have hbody : wavBody pcs fc nc = groups.flatten.flatten := by
    rw [List.flatten_flatten, hgroups, List.map_map]
    rfl
  have hgrp : ∀ x ∈ groups, x.length = nc := by
    intro x hx
    obtain ⟨j, _, hj⟩ := List.mem_map.mp hx
    rw [← hj, List.length_map, List.length_range]
  have hchunk : ∀ x ∈ groups.flatten, x.length = 2 := by
    intro x hx
    obtain ⟨l, hl, hxl⟩ := List.mem_flatten.mp hx
    obtain ⟨j, _, hj⟩ := List.mem_map.mp hl
    rw [← hj] at hxl
    obtain ⟨d, _, hd⟩ := List.mem_map.mp hxl
    rw [← hd]
    exact int16le_length _
  have higr : i < groups.length := by rw [hgroups, List.length_map, List.length_range]; exact hi
  have hinner : groups[i] = (List.range nc).map (fun c => g i c) := by
    have h1 : groups[i]? = some ((List.range nc).map (fun c => g i c)) := by
      rw [hgroups, List.getElem?_map, List.getElem?_range hi, Option.map_some']
    have h2 := List.getElem?_eq_getElem higr
    rw [h1] at h2
    exact (Option.some_inj.mp h2).symm
  have hcin : c < (groups[i]).length := by
    rw [hinner, List.length_map, List.length_range]; exact hc
  have hhead : (groups[i])[c] = g i c := by
    have h3 : (groups[i])[c]? = some (g i c) := by
      rw [hinner, List.getElem?_map, List.getElem?_range hc, Option.map_some']
    have h4 := List.getElem?_eq_getElem hcin
    rw [h3] at h4
    exact (Option.some_inj.mp h4).symm
  have hchunks_drop : groups.flatten.drop (i * nc + c) =
      g i c :: ((groups[i]).drop (c + 1) ++ (groups.drop (i + 1)).flatten) := by
    rw [← List.drop_drop, flatten_drop_mul nc groups i hgrp,
      List.drop_eq_getElem_cons higr, List.flatten_cons,
      List.drop_append_of_le_length (by rw [hinner, List.length_map, List.length_range]; omega),
      List.drop_eq_getElem_cons hcin, List.cons_append, hhead]
  rw [hbody, flatten_drop_mul 2 groups.flatten (i * nc + c) hchunk, hchunks_drop,
    List.flatten_cons, List.take_left' (int16le_length _)]

/-! ### C3: WAV blob size and byte-exact header -/

/-- C3: for every input, the WAV encoder emits a blob of exactly
`44 + frameCount * channels * 2` bytes whose 44-byte header is byte-exact:
"RIFF", u32 LE `36 + dataSize`, "WAVE", "fmt ", u32 LE 16, u16 LE 1 (PCM),
u16 LE channel count, u32 LE sample rate, u32 LE byte rate, u16 LE block
align, u16 LE 16 bits, "data", u32 LE `dataSize = frameCount * blockAlign`;
in particular a 1-second 44100 Hz mono buffer yields `44 + 44100 * 2`
bytes. -/
theorem wav_output_layout :
    (∀ (b : AudioBuffer) (s e fIn fOut : ℚ),
        (audioBufferToWav b s e fIn fOut).data.length =
          44 + (getProcessedSamples b s e fIn fOut).frameCount *
            (getProcessedSamples b s e fIn fOut).numChannels * 2 ∧
        (audioBufferToWav b s e fIn fOut).data.take 44 =
          strBytes "RIFF" ++
          u32le (36 + (getProcessedSamples b s e fIn fOut).frameCount *
            ((getProcessedSamples b s e fIn fOut).numChannels * 2)) ++
          strBytes "WAVE" ++ strBytes "fmt " ++ u32le 16 ++ u16le 1 ++
          u16le (getProcessedSamples b s e fIn fOut).numChannels ++
          u32le (getProcessedSamples b s e fIn fOut).sampleRate ++
          u32le ((getProcessedSamples b s e fIn fOut).sampleRate *
            ((getProcessedSamples b s e fIn fOut).numChannels * 2)) ++
          u16le ((getProcessedSamples b s e fIn fOut).numChannels * 2) ++
          u16le 16 ++ strBytes "data" ++
          u32le ((getProcessedSamples b s e fIn fOut).frameCount *
            ((getProcessedSamples b s e fIn fOut).numChannels * 2))) ∧
    (audioBufferToWav ⟨44100, [List.replicate 44100 0]⟩ 0 1 0 0).data.length =
      44 + 44100 * 2 := by
  have hgen : ∀ (b : AudioBuffer) (s e fIn fOut : ℚ),
      (audioBufferToWav b s e fIn fOut).data.length =
        44 + (getProcessedSamples b s e fIn fOut).frameCount *
          (getProcessedSamples b s e fIn fOut).numChannels * 2 := by
    intro b s e fIn fOut
    show (wavHeader _ _ _ ++ wavBody _ _ _).length = _
    rw [List.length_append, wavHeader_length, wavBody_length, Nat.mul_assoc]
  refine ⟨fun b s e fIn fOut => ⟨hgen b s e fIn fOut, ?_⟩, ?_⟩
  · show (wavHeader _ _ _ ++ wavBody _ _ _).take 44 = _
    rw [List.take_left' (wavHeader_length _ _ _)]
    rfl
  · rw [hgen]
    have h1 : (getProcessedSamples ⟨44100, [List.replicate 44100 0]⟩ 0 1 0 0).frameCount =
        44100 := by
      simp only [getProcessedSamples]
      norm_num
      rfl
    have h2 : (getProcessedSamples ⟨44100, [List.replicate 44100 0]⟩ 0 1 0 0).numChannels =
        1 := rfl
    rw [h1, h2]

/-! ### C4: asymmetric 16-bit quantization in both encoders -/

/-- C4: both encoders quantize with the asymmetric scheme
`sample < 0 ? sample * 32768 : sample * 32767` truncated to integer; the
WAV body stores each quantized sample little-endian at the frame-major
interleaved offset `44 + (i * numChannels + c) * 2`; the MP3 path's
`Int16Array` holds exactly the quantized clamped samples; and an
out-of-range sample of `1.5` with multiplier `1.0` encodes as `32767`. -/
theorem quantization_scheme :
    (∀ v : ℚ, quantize v =
        if v < 0 then ratTrunc (v * 32768) else ratTrunc (v * 32767)) ∧
    (∀ (b : AudioBuffer) (s e fIn fOut : ℚ) (i c : ℕ),
        i < (getProcessedSamples b s e fIn fOut).frameCount →
        c < (getProcessedSamples b s e fIn fOut).numChannels →
        ((audioBufferToWav b s e fIn fOut).data.drop
            (44 + (i * (getProcessedSamples b s e fIn fOut).numChannels + c) * 2)).take 2 =
          int16le (quantize
            (((getProcessedSamples b s e fIn fOut).processedChannels.getD c []).getD i 0))) ∧
    (∀ (pcs : List (List ℚ)) (encCh c : ℕ), c < encCh →
        (mp3SampleData pcs encCh).getD c [] =
          (pcs.getD c []).map (fun v => quantize (clamp v))) ∧
    quantize (clamp (3/2 * 1)) = 32767 := by
  refine ⟨fun v => rfl, ?_, ?_, ?_⟩
  · intro b s e fIn fOut i c hi hc
    show ((wavHeader _ _ _ ++ wavBody _ _ _).drop _).take 2 = _
    rw [show (44 : ℕ) + (i * (getProcessedSamples b s e fIn fOut).numChannels + c) * 2 =
        (wavHeader (getProcessedSamples b s e fIn fOut).numChannels
            (getProcessedSamples b s e fIn fOut).sampleRate
            (getProcessedSamples b s e fIn fOut).frameCount).length +
          (i * (getProcessedSamples b s e fIn fOut).numChannels + c) * 2 from by
        rw [wavHeader_length],
      List.drop_append, wavBody_sample_bytes _ _ _ hi hc]
  · intro pcs encCh c hc
    unfold mp3SampleData
    rw [getD_range_map_of_lt _ _ hc]
    refine List.map_congr_left (fun v _ => ?_)
    obtain ⟨hl, hu⟩ := quantize_bounds (neg_one_le_clamp v) (clamp_le_one v)
    exact toInt16_eq_of_bounds hl hu
  · have hcl : clamp ((3 : ℚ)/2 * 1) = 1 := by
      unfold clamp
      rw [show (3 : ℚ)/2 * 1 = 3/2 by norm_num,
        min_eq_left (by norm_num), max_eq_right (by norm_num)]
    rw [hcl]
    unfold quantize ratTrunc
    rw [if_neg (by norm_num), if_neg (by norm_num)]
    norm_num

/-- Witness for C4: the WAV bytes at offset 44 of a one-sample buffer whose
sample is the out-of-range value `3/2`. -/
theorem quantization_scheme_witness :
    ((audioBufferToWav ⟨1, [[3/2]]⟩ 0 1 0 0).data.drop
        (44 + (0 * (getProcessedSamples ⟨1, [[3/2]]⟩ 0 1 0 0).numChannels + 0) * 2)).take 2 =
      int16le (quantize
        (((getProcessedSamples ⟨1, [[3/2]]⟩ 0 1 0 0).processedChannels.getD 0 []).getD 0 0)) :=
  quantization_scheme.2.1 ⟨1, [[3/2]]⟩ 0 1 0 0 0 0
    (by simp only [getProcessedSamples]; norm_num)
    (by simp only [getProcessedSamples]; norm_num [AudioBuffer.numberOfChannels])

/-! ### C6: MP3 block submission protocol -/

lemma encodeBlocks_eq_runSubmissions {σ : Type} (L : LameJS σ) (left : List ℤ)
    (right : Option (List ℤ)) (fc : ℕ) :
    ∀ (n i : ℕ) (st : σ), fc - i ≤ n →
      encodeBlocks L st left right fc i =
        runSubmissions L st ((blockStartsFrom fc i).map (fun j =>
          ((left.drop j).take 1152, right.map (fun r => (r.drop j).take 1152)))) := by
  intro n
  induction n with
  | zero =>
    intro i st h
    have hnot : ¬ i < fc := by omega
    rw [encodeBlocks, blockStartsFrom]
    simp [hnot, runSubmissions]
  | succ n ih =>
    intro i st h
    rw [encodeBlocks, blockStartsFrom]
    by_cases hi : i < fc
    · simp only [hi, dif_pos, List.map_cons]
      simp only [runSubmissions]
      rw [ih (i + 1152) _ (by omega)]
    · simp [hi, runSubmissions]

lemma blockStartsFrom_eq (fc : ℕ) :
    ∀ (n k : ℕ), (fc + 1151) / 1152 - k ≤ n →
      blockStartsFrom fc (k * 1152) =
        (List.range' k ((fc + 1151) / 1152 - k)).map (fun j => j * 1152) := by
  intro n
  induction n with
  | zero =>
    intro k h
    have h1 : ¬ k * 1152 < fc := by omega
    rw [blockStartsFrom]
    simp [h1, show (fc + 1151) / 1152 - k = 0 from by omega]
  | succ n ih =>
    intro k h
    by_cases hk : k * 1152 < fc
    · rw [blockStartsFrom]
      simp only [hk, dif_pos]
      rw [show k * 1152 + 1152 = (k + 1) * 1152 from by ring, ih (k + 1) (by omega),
        show (fc + 1151) / 1152 - k = ((fc + 1151) / 1152 - (k + 1)) + 1 from by omega,
        List.range'_succ, List.map_cons]
    · have h0 : (fc + 1151) / 1152 - k = 0 := by omega
      rw [blockStartsFrom]
      simp [hk, h0]

lemma blockStartsFrom_zero (fc : ℕ) :
    blockStartsFrom fc 0 = (List.range ((fc + 1151) / 1152)).map (fun j => j * 1152) := by
  have h := blockStartsFrom_eq fc ((fc + 1151) / 1152) 0 (by omega)
  rw [Nat.zero_mul] at h
  rw [h, List.range_eq_range', Nat.sub_zero]

lemma specSubmissions_eq_map (left : List ℤ) (right : Option (List ℤ)) (fc : ℕ) :
    specSubmissions left right fc = (blockStartsFrom fc 0).map (fun j =>
      ((left.drop j).take 1152, right.map (fun r => (r.drop j).take 1152))) := by
  rw [blockStartsFrom_zero, List.map_map]
  rfl

/-- C6: the MP3 encoder submits the quantized samples in fixed 1152-frame
blocks in ascending order (the final, possibly partial, block included),
appends each non-empty compressed output in submission order, calls
`flush()` exactly once after all blocks (appending its output if
non-empty), and the final blob is the concatenation of the accumulated
chunks in that order — i.e. the implementation refines `mp3SpecBytes`. -/
theorem mp3_block_submission {σ : Type} (L : LameJS σ) (b : AudioBuffer) (s e fIn fOut : ℚ) :
    audioBufferToMp3 (some L) b s e fIn fOut =
      Except.ok ⟨mp3SpecBytes L
        (min (getProcessedSamples b s e fIn fOut).numChannels 2)
        (getProcessedSamples b s e fIn fOut).sampleRate
        ((mp3SampleData (getProcessedSamples b s e fIn fOut).processedChannels
            (min (getProcessedSamples b s e fIn fOut).numChannels 2)).getD 0 [])
        (if 1 < min (getProcessedSamples b s e fIn fOut).numChannels 2 then
          some ((mp3SampleData (getProcessedSamples b s e fIn fOut).processedChannels
              (min (getProcessedSamples b s e fIn fOut).numChannels 2)).getD 1 [])
        else none)
        (getProcessedSamples b s e fIn fOut).frameCount, "audio/mp3"⟩ := by
  simp only [audioBufferToMp3, mp3SpecBytes, specSubmissions_eq_map]
  rw [← encodeBlocks_eq_runSubmissions L _ _ _
    (getProcessedSamples b s e fIn fOut).frameCount 0 _ (by omega)]

/-! ### C7: channels beyond the second never influence the MP3 output -/

lemma getD_eq_of_take_eq {α : Type} {l₁ l₂ : List α} {n c : ℕ} (h : l₁.take n = l₂.take n)
    (hc : c < n) (d : α) : l₁.getD c d = l₂.getD c d := by
  rw [List.getD_eq_getElem?_getD, List.getD_eq_getElem?_getD]
  have h₁ : (l₁.take n)[c]? = (l₂.take n)[c]? := by rw [h]
  rw [List.getElem?_take, List.getElem?_take, if_pos hc, if_pos hc] at h₁
  rw [h₁]

/-- C7: the MP3 encoder uses `min(sourceChannels, 2)` channels; two sources
that agree on channels 0 and 1 (and on the sample rate) but differ in
higher-numbered channels produce identical MP3 output. -/
theorem mp3_channel_drop {σ : Type} (L : LameJS σ) (b₁ b₂ : AudioBuffer) (s e fIn fOut : ℚ)
    (hr : b₁.sampleRate = b₂.sampleRate)
    (h₁ : 2 ≤ b₁.numberOfChannels) (h₂ : 2 ≤ b₂.numberOfChannels)
    (hch : b₁.channels.take 2 = b₂.channels.take 2) :
    audioBufferToMp3 (some L) b₁ s e fIn fOut = audioBufferToMp3 (some L) b₂ s e fIn fOut := by
  simp only [AudioBuffer.numberOfChannels] at h₁ h₂
  have hrate : (getProcessedSamples b₁ s e fIn fOut).sampleRate =
      (getProcessedSamples b₂ s e fIn fOut).sampleRate := by
    simp only [getProcessedSamples, hr]
  have hfc : (getProcessedSamples b₁ s e fIn fOut).frameCount =
      (getProcessedSamples b₂ s e fIn fOut).frameCount := by
    simp only [getProcessedSamples, hr]
  have hmin₁ : min (getProcessedSamples b₁ s e fIn fOut).numChannels 2 = 2 := by
    simp only [getProcessedSamples, AudioBuffer.numberOfChannels]
    omega
  have hmin₂ : min (getProcessedSamples b₂ s e fIn fOut).numChannels 2 = 2 := by
    simp only [getProcessedSamples, AudioBuffer.numberOfChannels]
    omega
  have hpcs : ∀ c < 2, (getProcessedSamples b₁ s e fIn fOut).processedChannels.getD c [] =
      (getProcessedSamples b₂ s e fIn fOut).processedChannels.getD c [] := by
    intro c hc
    simp only [getProcessedSamples]
    rw [getD_map_of_lt _ _ _ ([] : List ℚ) (by omega),
      getD_map_of_lt _ _ _ ([] : List ℚ) (by omega),
      getD_eq_of_take_eq hch hc ([] : List ℚ), hr]
  have hsd : mp3SampleData (getProcessedSamples b₁ s e fIn fOut).processedChannels 2 =
      mp3SampleData (getProcessedSamples b₂ s e fIn fOut).processedChannels 2 := by
    unfold mp3SampleData
    exact List.map_congr_left (fun c hcm => by
      rw [hpcs c (List.mem_range.mp hcm)])
  simp only [audioBufferToMp3, hmin₁, hmin₂, hrate, hfc, hsd]

/-- Witness for C7: a 3-channel and a 4-channel source agreeing on their
first two channels encode to the same MP3 blob. -/
theorem mp3_channel_drop_witness :
    audioBufferToMp3 (some probeLame) ⟨1, [[1/2], [1/4], [1]]⟩ 0 1 0 0 =
      audioBufferToMp3 (some probeLame) ⟨1, [[1/2], [1/4], [0], [5]]⟩ 0 1 0 0 :=
  mp3_channel_drop probeLame ⟨1, [[1/2], [1/4], [1]]⟩ ⟨1, [[1/2], [1/4], [0], [5]]⟩ 0 1 0 0
    rfl (by decide) (by decide) rfl

end AudioUtils
